import Mathlib

/-!
Shallow embedding of the hybrid recommendation engine of
`server/services/recommender.py` together with the routing logic of
`server/api/endpoints/recommendations.py`.

Modelling conventions:
* product and user ids are strings, as in the source;
* all scores are exact rationals (`ℚ`); the source uses Python floats, but
  every claim under study is about the algebraic and structural behaviour
  of the scoring pipeline, which the exact-arithmetic model captures;
* a Python `dict` is modelled as an association list in insertion order:
  assignment updates the value of an existing key in place or appends a
  fresh key at the end, exactly as CPython dicts behave;
* the three trained `surprise` oracles are opaque functions
  `userId → productId → Option ℚ`; `none` models a raised prediction
  exception (unknown user/item), `some q` a successful `.predict(...).est`;
* pandas frames are association lists of rows in frame order;
  `Series.unique()` is first-occurrence deduplication;
* the cold-start cache file is threaded explicitly: `Option CacheEntry` is
  the cache state (`none` = missing or unreadable file) and the current
  wall-clock time is an explicit parameter measured in hours;
* `list.sort(key=score, reverse=True)` / `sorted(..., reverse=True)` are
  Python's stable descending sort, modelled by `List.mergeSort` with the
  comparison `b.2 ≤ a.2`.
-/

namespace RecomML

abbrev PId := String
abbrev UId := String

/-- Python dict lookup `d.get(k)`: the value of the (unique) entry with key
`k`, as an association-list first-match lookup. -/
def dget? {β : Type} (d : List (String × β)) (k : String) : Option β :=
  (d.find? (fun p => decide (p.1 = k))).map Prod.snd

/-- Dict lookup defaulting to `0`, the running-accumulator read used during
blending. -/
def dgetD (d : List (String × ℚ)) (k : String) : ℚ :=
  (dget? d k).getD 0

/-- Python dict assignment `d[k] = v`: update the entry in place when the key
exists, otherwise append the new binding at the end (CPython insertion
order). -/
def dset {β : Type} (d : List (String × β)) (k : String) (v : β) :
    List (String × β) :=
  if d.any (fun p => decide (p.1 = k)) then
    d.map (fun p => if p.1 = k then (p.1, v) else p)
  else
    d ++ [(k, v)]

/-- The add-or-insert pattern `d[k] = d.get(k, 0) + v` used by the blending
loops (`if k in d: d[k] += v else: d[k] = v`). -/
def dadd (d : List (String × ℚ)) (k : String) (v : ℚ) : List (String × ℚ) :=
  match dget? d k with
  | some w => dset d k (w + v)
  | none => d ++ [(k, v)]

/-- Helper for `uniqueFirst`: keep elements not yet seen. -/
def uniqueAux {α : Type} [DecidableEq α] (seen : List α) : List α → List α
  | [] => []
  | a :: l => if a ∈ seen then uniqueAux seen l else a :: uniqueAux (a :: seen) l

/-- `pandas.Series.unique()`: the distinct values, keeping the first
occurrence of each in order. -/
def uniqueFirst {α : Type} [DecidableEq α] (l : List α) : List α :=
  uniqueAux [] l

/-- One row of `interactions_df` (the columns the engine reads). -/
structure Interaction where
  userId : UId
  productId : PId
deriving DecidableEq, Repr

/-- The dynamic value found in a catalog document's `ratingDistribution`
field: a list of `{rating, count}` records, an already-keyed mapping, or any
other (non-list, non-dict) value.  A document lacking the field reads as the
empty list via `product_details.get('ratingDistribution', [])`. -/
inductive RatingDistInput where
  | fromList : List (Nat × Int) → RatingDistInput
  | fromDict : List (String × Int) → RatingDistInput
  | other : RatingDistInput
deriving DecidableEq, Repr

/-- A catalog document from `db_products`.  Fields read through
`product_details.get(key, default)` are `Option`s (`none` = key absent);
fields read by direct subscription (`product_details['name']` etc.) are
mandatory. -/
structure Product where
  _id : PId
  name : String
  category : String
  brand : String
  description : Option String
  price : Option ℚ
  listPrice : Option ℚ
  images : Option (List String)
  colors : Option (List String)
  sizes : Option (List String)
  tags : Option (List String)
  countInStock : Option Int
  slug : Option String
  avgRating : Option ℚ
  numReviews : Option Int
  numSales : Option Int
  isPublished : Option Bool
  createdAt : Option String
  updatedAt : Option String
  ratingDistribution : RatingDistInput
deriving DecidableEq, Repr

/-- The enriched recommendation record built by `format_product_details`. -/
structure RecommendationResult where
  _id : String
  name : String
  score : ℚ
  category : String
  brand : String
  description : String
  price : ℚ
  listPrice : ℚ
  images : List String
  colors : List String
  sizes : List String
  tags : List String
  countInStock : Int
  slug : String
  avgRating : ℚ
  numReviews : Int
  numSales : Int
  isPublished : Bool
  createdAt : String
  updatedAt : String
  ratingDistribution : List (String × Int)
deriving DecidableEq, Repr

/-- The JSON document stored in `cold_start_cache.json`: an ISO timestamp
(modelled as hours on a rational clock) and the cached enriched list. -/
structure CacheEntry where
  timestamp : ℚ
  recommendations : List RecommendationResult
deriving DecidableEq, Repr

/-- The `HybridRecommendationSystem` constructor state: three opaque
collaborative oracles, the similarity matrix (rows keyed by product id), the
pre-sorted popularity table (`product_id`, `popularity_score` columns), the
`product_id` column of `products_df`, the interaction log and the catalog. -/
structure HybridRecommendationSystem where
  svd_model : UId → PId → Option ℚ
  nmf_model : UId → PId → Option ℚ
  knn_model : UId → PId → Option ℚ
  product_similarity : List (PId × List (PId × ℚ))
  product_popularity : List (PId × ℚ)
  products_df : List PId
  interactions_df : List Interaction
  db_products : List Product

/-- Normalisation of the `ratingDistribution` field in
`format_product_details`: a list of records becomes the dict comprehension
`{str(item['rating']): item['count'] for item in rating_dist}`; a dict is
passed through unchanged; anything else becomes the literal all-zero
mapping. -/
def formatRatingDist : RatingDistInput → List (String × Int)
  | .fromList l => l.foldl (fun d p => dset d (toString p.1) p.2) []
  | .fromDict d => d
  | .other => [("1", 0), ("2", 0), ("3", 0), ("4", 0), ("5", 0)]

/-- `format_product_details(product_details, score)`: attach catalog
metadata to a scored product id, defaulting each optional field exactly as
the source's `.get(key, default)` calls do. -/
def format_product_details (pd : Product) (score : ℚ) : RecommendationResult :=
  { _id := pd._id
    name := pd.name
    score := score
    category := pd.category
    brand := pd.brand
    description := pd.description.getD ""
    price := pd.price.getD 0
    listPrice := pd.listPrice.getD 0
    images := pd.images.getD []
    colors := pd.colors.getD []
    sizes := pd.sizes.getD []
    tags := pd.tags.getD []
    countInStock := pd.countInStock.getD 0
    slug := pd.slug.getD ""
    avgRating := pd.avgRating.getD 0
    numReviews := pd.numReviews.getD 0
    numSales := pd.numSales.getD 0
    isPublished := pd.isPublished.getD true
    createdAt := pd.createdAt.getD ""
    updatedAt := pd.updatedAt.getD ""
    ratingDistribution := formatRatingDist pd.ratingDistribution }

/-- `get_user_interactions`: the distinct product ids of the user's rows in
`interactions_df`, or `[]` when the user never appears. -/
def get_user_interactions (sys : HybridRecommendationSystem) (uid : UId) :
    List PId :=
  if uid ∈ sys.interactions_df.map (fun i => i.userId) then
    uniqueFirst ((sys.interactions_df.filter (fun i => decide (i.userId = uid))).map
      (fun i => i.productId))
  else []

/-- The candidate set of `collaborative_recommendations`: every catalog
product id the user has not interacted with. -/
def products_to_predict (sys : HybridRecommendationSystem) (uid : UId) :
    List PId :=
  (uniqueFirst sys.products_df).filter
    (fun p => decide (p ∉ get_user_interactions sys uid))

/-- The per-candidate prediction loop of `collaborative_recommendations`:
each candidate is scored `0.4*svd + 0.2*nmf + 0.4*knn` when all three oracle
calls succeed, and skipped entirely when any of them raises. -/
def collaborative_predictions (sys : HybridRecommendationSystem) (uid : UId) :
    List (PId × ℚ) :=
  (products_to_predict sys uid).filterMap (fun pid =>
    match sys.svd_model uid pid, sys.nmf_model uid pid, sys.knn_model uid pid with
    | some s, some m, some k => some (pid, 0.4 * s + 0.2 * m + 0.4 * k)
    | _, _, _ => none)

/-- `collaborative_recommendations(user_id, n)`: the predictions sorted by
score descending (stable) and truncated to `n`. -/
def collaborative_recommendations (sys : HybridRecommendationSystem)
    (uid : UId) (n : Nat) : List (PId × ℚ) :=
  ((collaborative_predictions sys uid).mergeSort
    (fun a b => decide (b.2 ≤ a.2))).take n

/-- A column of the (square, symmetric) similarity frame, keyed by product
id; `none` when the id is absent from the frame. -/
def simColumn (sys : HybridRecommendationSystem) (pid : PId) :
    Option (List (PId × ℚ)) :=
  (sys.product_similarity.find? (fun r => decide (r.1 = pid))).map Prod.snd

/-- The inner loop body of the content accumulation: add one similarity
entry `e` to the running dict unless its id is one of the user's own
products or the seed itself (`idx not in user_product_ids and
idx != product_id`). -/
def content_entry_step (seeds : List PId) (pid : PId)
    (acc2 : List (PId × ℚ)) (e : PId × ℚ) : List (PId × ℚ) :=
  if e.1 ∉ seeds ∧ e.1 ≠ pid then dadd acc2 e.1 e.2 else acc2

/-- The outer loop body of the content accumulation: fold one seed product's
similarity column (if any) into the running dict. -/
def content_seed_step (sys : HybridRecommendationSystem) (seeds : List PId)
    (acc : List (PId × ℚ)) (pid : PId) : List (PId × ℚ) :=
  match simColumn sys pid with
  | none => acc
  | some col => col.foldl (content_entry_step seeds pid) acc

/-- The accumulation loop of `content_based_recommendations`: for each seed
product of the user with a similarity column, add each similar-product entry
to the running dict unless the entry's id is one of the user's own products
or the seed itself. -/
def content_accumulate (sys : HybridRecommendationSystem)
    (seeds : List PId) : List (PId × ℚ) :=
  seeds.foldl (content_seed_step sys seeds) []

/-- `content_based_recommendations(user_id, n)`: empty for a user with no
interactions; otherwise accumulate similarities over the seeds, divide each
total by the number of seeds, sort descending, truncate to `n`. -/
def content_based_recommendations (sys : HybridRecommendationSystem)
    (uid : UId) (n : Nat) : List (PId × ℚ) :=
  let seeds := get_user_interactions sys uid
  if seeds.length = 0 then []
  else
    (((content_accumulate sys seeds).map
        (fun p => (p.1, p.2 / (seeds.length : ℚ)))).mergeSort
      (fun a b => decide (b.2 ≤ a.2))).take n

/-- `popularity_recommendations(user_id, n)`: the popularity table minus the
user's products, in table order, truncated to `n`. -/
def popularity_recommendations (sys : HybridRecommendationSystem)
    (uid : UId) (n : Nat) : List (PId × ℚ) :=
  ((sys.product_popularity.filter
    (fun r => decide (r.1 ∉ get_user_interactions sys uid))).take n)

/-- The three blending loops of `get_hybrid_recommendations`: the first loop
assigns `cf_weight * score` per collaborative entry, the second and third
add `cb_weight * score` / `pop_weight * score` into the accumulator dict. -/
def blendDict (cf cb pop : List (PId × ℚ)) (cfw cbw popw : ℚ) :
    List (PId × ℚ) :=
  let d1 := cf.foldl (fun d p => dset d p.1 (cfw * p.2)) []
  let d2 := cb.foldl (fun d p => dadd d p.1 (cbw * p.2)) d1
  pop.foldl (fun d p => dadd d p.1 (popw * p.2)) d2

/-- Order-generic weighted merge: fold one weighted list into an accumulator
dict with add-or-insert semantics. -/
def mergeOne (d : List (PId × ℚ)) (wl : ℚ × List (PId × ℚ)) :
    List (PId × ℚ) :=
  wl.2.foldl (fun d p => dadd d p.1 (wl.1 * p.2)) d

/-- Merge any sequence of (weight, list) pairs, in sequence order. -/
def mergeAll (ls : List (ℚ × List (PId × ℚ))) : List (PId × ℚ) :=
  ls.foldl mergeOne []

/-- The sum of the scores of all entries of a list carrying a given key (the
key's raw score when keys are distinct, `0` when absent). -/
def keySum (l : List (PId × ℚ)) (pid : PId) : ℚ :=
  ((l.filter (fun p => decide (p.1 = pid))).map Prod.snd).sum

/-- The enrichment loop shared by the hybrid and product-anchored paths:
look up each scored id in `db_products`, silently dropping ids with no
catalog document. -/
def enrich_with_details (db : List Product) (recs : List (PId × ℚ)) :
    List RecommendationResult :=
  recs.filterMap (fun p =>
    (db.find? (fun item => decide (item._id = p.1))).map
      (fun pd => format_product_details pd p.2))

/-- `get_hybrid_recommendations(user_id, n, cf_weight, cb_weight,
pop_weight)`: query each scorer for `2n` candidates, blend with the three
weighted loops, sort descending, truncate to `n`, enrich. -/
def get_hybrid_recommendations (sys : HybridRecommendationSystem) (uid : UId)
    (n : Nat) (cfw cbw popw : ℚ) : List RecommendationResult :=
  let cf := collaborative_recommendations sys uid (n * 2)
  let cb := content_based_recommendations sys uid (n * 2)
  let pop := popularity_recommendations sys uid (n * 2)
  enrich_with_details sys.db_products
    (((blendDict cf cb pop cfw cbw popw).mergeSort
      (fun a b => decide (b.2 ≤ a.2))).take n)

/-- The fresh-computation loop of `handle_cold_start_user`: top-`n` rows of
the popularity table, skipping falsy (empty) product ids and rows with no
catalog document. -/
def cold_start_compute (pop : List (PId × ℚ)) (db : List Product) (n : Nat) :
    List RecommendationResult :=
  (pop.take n).filterMap (fun row =>
    if row.1 = "" then none
    else
      (db.find? (fun item => decide (item._id = row.1))).map
        (fun pd => format_product_details pd row.2))

/-- The cache-miss branch of `handle_cold_start_user`: guard the empty
popularity table, empty catalog and empty head, compute the fresh list, and
write it to the cache only when it is non-empty. -/
def handle_cold_start_fresh (pop : List (PId × ℚ)) (db : List Product)
    (n : Nat) (cache : Option CacheEntry) (now : ℚ) :
    List RecommendationResult × Option CacheEntry :=
  if pop.isEmpty then ([], cache)
  else if db.isEmpty then ([], cache)
  else if (pop.take n).isEmpty then ([], cache)
  else
    let recommendations := cold_start_compute pop db n
    if recommendations.isEmpty then (recommendations, cache)
    else (recommendations, some ⟨now, recommendations⟩)

/-- `handle_cold_start_user(product_popularity_df, db_products_list, n,
cache_duration_hours)`: serve the cached list unchanged while
`now - timestamp < ttl`, otherwise recompute from the popularity table.  The
pair's second component is the cache state after the call. -/
def handle_cold_start_user (pop : List (PId × ℚ)) (db : List Product)
    (n : Nat) (cache_duration_hours : ℚ) (cache : Option CacheEntry)
    (now : ℚ) : List RecommendationResult × Option CacheEntry :=
  match cache with
  | some entry =>
    if now - entry.timestamp < cache_duration_hours then
      (entry.recommendations, some entry)
    else
      handle_cold_start_fresh pop db n cache now
  | none => handle_cold_start_fresh pop db n cache now

/-- The per-candidate loop of `get_recommendations_for_product` on the
anchor's similarity column (anchor and already-interacted products removed):
assign the weighted content score, add one SVD prediction when the user has
history and the prediction succeeds, and add the weighted popularity score
(first matching table row, `0` when absent). -/
def anchored_scores (sys : HybridRecommendationSystem) (uid : UId)
    (anchor : PId) (cw cfw popw : ℚ) : List (PId × ℚ) :=
  let userProds := get_user_interactions sys uid
  let sims := (((simColumn sys anchor).getD []).filter
      (fun e => decide (e.1 ≠ anchor))).filter
    (fun e => decide (e.1 ∉ userProds))
  sims.foldl (fun d e =>
    let d1 := dset d e.1 (cw * e.2)
    let d2 :=
      if uid ∈ sys.interactions_df.map (fun i => i.userId) then
        match sys.svd_model uid e.1 with
        | some cf => dadd d1 e.1 (cfw * cf)
        | none => d1
      else d1
    let popScore :=
      match sys.product_popularity.find? (fun r => decide (r.1 = e.1)) with
      | some r => r.2
      | none => 0
    dadd d2 e.1 (popw * popScore)) []

/-- `get_recommendations_for_product(user_id, product_id, n, ...)`: delegate
to the cold-start handler (with its default 120-hour TTL) when the anchor
has no row in the similarity matrix; otherwise score the anchor's similar
products, sort descending, truncate, enrich.  The cache state is threaded
through as in `handle_cold_start_user`. -/
def get_recommendations_for_product (sys : HybridRecommendationSystem)
    (uid : UId) (anchor : PId) (n : Nat) (cw cfw popw : ℚ)
    (cache : Option CacheEntry) (now : ℚ) :
    List RecommendationResult × Option CacheEntry :=
  if anchor ∉ sys.product_similarity.map (fun r => r.1) then
    handle_cold_start_user sys.product_popularity sys.db_products n 120
      cache now
  else
    (enrich_with_details sys.db_products
      (((anchored_scores sys uid anchor cw cfw popw).mergeSort
        (fun a b => decide (b.2 ≤ a.2))).take n), cache)

/-- The cold-start branch of the `/recommendations/{user_id}` endpoint:
`handle_cold_start_user` on the system's popularity table and catalog with
the default 120-hour TTL. -/
def getRecommendations_coldPath (sys : HybridRecommendationSystem) (n : Nat)
    (cache : Option CacheEntry) (now : ℚ) :
    List RecommendationResult × Option CacheEntry :=
  handle_cold_start_user sys.product_popularity sys.db_products n 120
    cache now

/-- `getRecommendations(user_id, n)` as routed by the
`/recommendations/{user_id}` endpoint: users absent from the interaction log
take the cold-start path, others the hybrid path (with the source's default
weights 0.5 / 0.3 / 0.2). -/
def getRecommendations (sys : HybridRecommendationSystem) (uid : UId)
    (n : Nat) (cache : Option CacheEntry) (now : ℚ) :
    List RecommendationResult × Option CacheEntry :=
  if uid ∉ sys.interactions_df.map (fun i => i.userId) then
    getRecommendations_coldPath sys n cache now
  else
    (get_hybrid_recommendations sys uid n 0.5 0.3 0.2, cache)

/-! ### Association-list (Python dict) lemmas -/

theorem any_key_iff {β : Type} (d : List (String × β)) (k : String) :
    d.any (fun p => decide (p.1 = k)) = true ↔ k ∈ d.map Prod.fst := by
  rw [List.any_eq_true]
  simp only [decide_eq_true_eq, List.mem_map]

theorem map_fst_dset {β : Type} (d : List (String × β)) (k : String) (v : β) :
    (dset d k v).map Prod.fst =
      if k ∈ d.map Prod.fst then d.map Prod.fst
      else d.map Prod.fst ++ [k] := by
  unfold dset
  by_cases h : k ∈ d.map Prod.fst
  · rw [if_pos ((any_key_iff d k).mpr h), if_pos h, List.map_map]
    apply List.map_congr_left
    intro p _
    by_cases hp : p.1 = k <;> simp [hp]
  · rw [if_neg (fun hc => h ((any_key_iff d k).mp hc)), if_neg h]
    simp

theorem mem_keys_dset {β : Type} (d : List (String × β)) (k k' : String)
    (v : β) :
    k' ∈ (dset d k v).map Prod.fst ↔ k' ∈ d.map Prod.fst ∨ k' = k := by
  rw [map_fst_dset]
  by_cases h : k ∈ d.map Prod.fst
  · rw [if_pos h]
    constructor
    · exact Or.inl
    · rintro (h' | rfl)
      · exact h'
      · exact h
  · rw [if_neg h]
    simp

theorem nodup_keys_dset {β : Type} (d : List (String × β)) (k : String)
    (v : β) (h : (d.map Prod.fst).Nodup) :
    ((dset d k v).map Prod.fst).Nodup := by
  rw [map_fst_dset]
  by_cases hk : k ∈ d.map Prod.fst
  · rwa [if_pos hk]
  · rw [if_neg hk]
    simp [List.nodup_append, h, hk]

theorem dget?_eq_none {β : Type} (d : List (String × β)) (k : String) :
    dget? d k = none ↔ k ∉ d.map Prod.fst := by
  rw [dget?, Option.map_eq_none', List.find?_eq_none]
  simp only [decide_eq_true_eq, List.mem_map]
  constructor
  · rintro h ⟨p, hp, he⟩
    exact h p hp he
  · rintro h p hp he
    exact h ⟨p, hp, he⟩

theorem map_fst_dadd (d : List (String × ℚ)) (k : String) (v : ℚ) :
    (dadd d k v).map Prod.fst =
      if k ∈ d.map Prod.fst then d.map Prod.fst
      else d.map Prod.fst ++ [k] := by
  unfold dadd
  cases hg : dget? d k with
  | some w =>
    have hk : k ∈ d.map Prod.fst := by
      by_contra hc
      rw [(dget?_eq_none d k).mpr hc] at hg
      exact Option.noConfusion hg
    rw [map_fst_dset, if_pos hk]
  | none =>
    have hk : k ∉ d.map Prod.fst := (dget?_eq_none d k).mp hg
    rw [if_neg hk]
    simp

theorem mem_keys_dadd (d : List (String × ℚ)) (k k' : String) (v : ℚ) :
    k' ∈ (dadd d k v).map Prod.fst ↔ k' ∈ d.map Prod.fst ∨ k' = k := by
  rw [map_fst_dadd]
  by_cases h : k ∈ d.map Prod.fst
  · rw [if_pos h]
    constructor
    · exact Or.inl
    · rintro (h' | rfl)
      · exact h'
      · exact h
  · rw [if_neg h]
    simp

theorem nodup_keys_dadd (d : List (String × ℚ)) (k : String) (v : ℚ)
    (h : (d.map Prod.fst).Nodup) : ((dadd d k v).map Prod.fst).Nodup := by
  rw [map_fst_dadd]
  by_cases hk : k ∈ d.map Prod.fst
  · rwa [if_pos hk]
  · rw [if_neg hk]
    simp [List.nodup_append, h, hk]

theorem dget?_cons {β : Type} (p : String × β) (d : List (String × β))
    (k : String) :
    dget? (p :: d) k = if p.1 = k then some p.2 else dget? d k := by
  by_cases h : p.1 = k
  · rw [if_pos h, dget?, List.find?_cons_of_pos _ (by simp [h])]
    rfl
  · rw [if_neg h, dget?, dget?, List.find?_cons_of_neg _ (by simp [h])]

theorem dget?_append {β : Type} (d l : List (String × β)) (k : String) :
    dget? (d ++ l) k = ((dget? d k).or (dget? l k)) := by
  rw [dget?, dget?, dget?, List.find?_append, Option.map_or']

theorem dget?_dset_self {β : Type} (d : List (String × β)) (k : String)
    (v : β) : dget? (dset d k v) k = some v := by
  unfold dset
  by_cases h : d.any (fun p => decide (p.1 = k)) = true
  · rw [if_pos h, dget?, List.find?_map]
    have hpred : ((fun p : String × β => decide (p.1 = k)) ∘
        (fun p : String × β => if p.1 = k then (p.1, v) else p)) =
        fun p : String × β => decide (p.1 = k) := by
      funext p
      by_cases hp : p.1 = k <;> simp [hp]
    rw [hpred]
    rcases (any_key_iff d k).mp h with hk
    rcases List.mem_map.mp hk with ⟨p0, hp0, hfst⟩
    cases hf : d.find? (fun p => decide (p.1 = k)) with
    | none =>
      rw [List.find?_eq_none] at hf
      exact absurd (by simpa using hfst) (by simpa using hf p0 hp0)
    | some q =>
      have hq : q.1 = k := by simpa using List.find?_some hf
      simp [hq]
  · rw [if_neg h, dget?_append]
    have hnone : dget? d k = none := by
      rw [dget?_eq_none]
      intro hk
      exact h ((any_key_iff d k).mpr hk)
    rw [hnone]
    simp [dget?_cons]

theorem dget?_dset_other {β : Type} (d : List (String × β)) (k k' : String)
    (v : β) (h : k' ≠ k) : dget? (dset d k v) k' = dget? d k' := by
  unfold dset
  by_cases hc : d.any (fun p => decide (p.1 = k)) = true
  · rw [if_pos hc, dget?, List.find?_map]
    have hpred : ((fun p : String × β => decide (p.1 = k')) ∘
        (fun p : String × β => if p.1 = k then (p.1, v) else p)) =
        fun p : String × β => decide (p.1 = k') := by
      funext p
      by_cases hp : p.1 = k <;> simp [hp]
    rw [hpred, dget?]
    cases hf : d.find? (fun p => decide (p.1 = k')) with
    | none => rfl
    | some q =>
      have hq : q.1 = k' := by simpa using List.find?_some hf
      have : q.1 ≠ k := fun hc2 => h (hq ▸ hc2)
      simp [this]
  · rw [if_neg hc, dget?_append]
    have h1 : dget? [(k, v)] k' = none := by
      rw [dget?_cons, if_neg (fun hc2 : k = k' => h hc2.symm)]
      rfl
    rw [h1, Option.or_none]

theorem dset_of_not_mem {β : Type} (d : List (String × β)) (k : String)
    (v : β) (h : k ∉ d.map Prod.fst) : dset d k v = d ++ [(k, v)] := by
  unfold dset
  rw [if_neg (fun hc => h ((any_key_iff d k).mp hc))]

theorem dset_eq_dadd_of_not_mem (d : List (String × ℚ)) (k : String) (v : ℚ)
    (h : k ∉ d.map Prod.fst) : dset d k v = dadd d k v := by
  rw [dset_of_not_mem d k v h, dadd, (dget?_eq_none d k).mpr h]

theorem dgetD_dadd_self (d : List (String × ℚ)) (k : String) (v : ℚ) :
    dgetD (dadd d k v) k = dgetD d k + v := by
  unfold dadd
  cases hg : dget? d k with
  | some w =>
    rw [dgetD, dget?_dset_self, dgetD, hg]
    rfl
  | none =>
    rw [dgetD, dget?_append, hg, dgetD, hg]
    simp [dget?_cons]

theorem dgetD_dadd_other (d : List (String × ℚ)) (k k' : String) (v : ℚ)
    (h : k' ≠ k) : dgetD (dadd d k v) k' = dgetD d k' := by
  unfold dadd
  cases hg : dget? d k with
  | some w => rw [dgetD, dget?_dset_other d k k' _ h, dgetD]
  | none =>
    rw [dgetD, dget?_append, dgetD]
    cases hg' : dget? d k' with
    | some w => rfl
    | none =>
      rw [dget?_cons, if_neg (fun hc : k = k' => h hc.symm)]
      rfl

theorem dgetD_of_mem_nodup (d : List (String × ℚ)) (k : String) (v : ℚ)
    (hmem : (k, v) ∈ d) (hnd : (d.map Prod.fst).Nodup) : dgetD d k = v := by
  induction d with
  | nil => cases hmem
  | cons p d ih =>
    rcases List.mem_cons.mp hmem with rfl | hmem'
    · rw [dgetD, dget?_cons, if_pos rfl]
      rfl
    · have hk : k ≠ p.1 := by
        intro hc
        have : p.1 ∈ d.map Prod.fst := hc ▸ List.mem_map.mpr ⟨(k, v), hmem', rfl⟩
        exact (List.nodup_cons.mp (by simpa using hnd)).1 this
      rw [dgetD, dget?_cons, if_neg (fun hc => hk hc.symm)]
      exact ih hmem' (List.nodup_cons.mp (by simpa using hnd)).2

/-! ### Blending fold lemmas -/

theorem keySum_nil (k : PId) : keySum [] k = 0 := rfl

theorem keySum_cons (p : PId × ℚ) (l : List (PId × ℚ)) (k : PId) :
    keySum (p :: l) k = (if p.1 = k then p.2 else 0) + keySum l k := by
  by_cases h : p.1 = k <;> simp [keySum, List.filter_cons, h]

theorem keySum_eq_zero_of_not_mem (l : List (PId × ℚ)) (k : PId)
    (h : k ∉ l.map Prod.fst) : keySum l k = 0 := by
  induction l with
  | nil => rfl
  | cons p l ih =>
    rw [keySum_cons, if_neg (fun hc => h (by simp [hc])), zero_add]
    exact ih (fun hc => h (by simp at hc ⊢; exact Or.inr hc))

theorem keySum_eq_dget? (l : List (PId × ℚ)) (k : PId)
    (h : (l.map Prod.fst).Nodup) : keySum l k = (dget? l k).getD 0 := by
  induction l with
  | nil => rfl
  | cons p l ih =>
    rw [keySum_cons, dget?_cons]
    rw [List.map_cons] at h
    by_cases hp : p.1 = k
    · rw [if_pos hp, if_pos hp]
      have hk : k ∉ l.map Prod.fst := hp ▸ (List.nodup_cons.mp h).1
      rw [keySum_eq_zero_of_not_mem l k hk, add_zero]
      rfl
    · rw [if_neg hp, if_neg hp, zero_add]
      exact ih (List.nodup_cons.mp h).2

theorem mergeOne_def (d : List (PId × ℚ)) (w : ℚ) (l : List (PId × ℚ)) :
    mergeOne d (w, l) = l.foldl (fun d p => dadd d p.1 (w * p.2)) d := rfl

theorem mem_keys_mergeOne (d : List (PId × ℚ)) (w : ℚ) (l : List (PId × ℚ))
    (k : PId) :
    k ∈ (mergeOne d (w, l)).map Prod.fst ↔
      k ∈ d.map Prod.fst ∨ k ∈ l.map Prod.fst := by
  induction l generalizing d with
  | nil => simp [mergeOne_def]
  | cons p l ih =>
    rw [mergeOne_def, List.foldl_cons, ← mergeOne_def,
      ih (dadd d p.1 (w * p.2)), mem_keys_dadd]
    simp only [List.map_cons, List.mem_cons]
    tauto

theorem nodup_keys_mergeOne (d : List (PId × ℚ)) (w : ℚ)
    (l : List (PId × ℚ)) (h : (d.map Prod.fst).Nodup) :
    ((mergeOne d (w, l)).map Prod.fst).Nodup := by
  induction l generalizing d with
  | nil => exact h
  | cons p l ih =>
    rw [mergeOne_def, List.foldl_cons, ← mergeOne_def]
    exact ih _ (nodup_keys_dadd d p.1 (w * p.2) h)

theorem dgetD_mergeOne (d : List (PId × ℚ)) (w : ℚ) (l : List (PId × ℚ))
    (k : PId) :
    dgetD (mergeOne d (w, l)) k = dgetD d k + w * keySum l k := by
  induction l generalizing d with
  | nil => simp [mergeOne_def, keySum_nil]
  | cons p l ih =>
    rw [mergeOne_def, List.foldl_cons, ← mergeOne_def,
      ih (dadd d p.1 (w * p.2)), keySum_cons]
    by_cases hp : p.1 = k
    · rw [if_pos hp, hp, dgetD_dadd_self]
      ring
    · rw [if_neg hp, dgetD_dadd_other d p.1 k _ (fun hc => hp hc.symm)]
      ring

theorem dgetD_foldl_mergeOne (ls : List (ℚ × List (PId × ℚ)))
    (d : List (PId × ℚ)) (k : PId) :
    dgetD (ls.foldl mergeOne d) k =
      dgetD d k + ((ls.map (fun wl => wl.1 * keySum wl.2 k)).sum) := by
  induction ls generalizing d with
  | nil => simp
  | cons wl ls ih =>
    rw [List.foldl_cons, ih, List.map_cons, List.sum_cons]
    rcases wl with ⟨w, l⟩
    rw [dgetD_mergeOne]
    ring

theorem dgetD_mergeAll (ls : List (ℚ × List (PId × ℚ))) (k : PId) :
    dgetD (mergeAll ls) k =
      ((ls.map (fun wl => wl.1 * keySum wl.2 k)).sum) := by
  rw [mergeAll, dgetD_foldl_mergeOne]
  have h0 : dgetD [] k = 0 := rfl
  rw [h0, zero_add]

theorem foldl_dset_eq_mergeOne (l : List (PId × ℚ)) (w : ℚ) :
    ∀ d : List (PId × ℚ), (∀ p ∈ l, p.1 ∉ d.map Prod.fst) →
      (l.map Prod.fst).Nodup →
      l.foldl (fun d p => dset d p.1 (w * p.2)) d = mergeOne d (w, l) := by
  induction l with
  | nil => intro d _ _; rfl
  | cons p l ih =>
    intro d hdisj hnd
    rw [List.foldl_cons, mergeOne_def, List.foldl_cons,
      dset_eq_dadd_of_not_mem d p.1 (w * p.2)
        (hdisj p (List.mem_cons_self p l))]
    rw [← mergeOne_def]
    apply ih
    · intro q hq hmem
      rcases (mem_keys_dadd d p.1 q.1 (w * p.2)).mp hmem with hmem' | heq
      · exact hdisj q (List.mem_cons_of_mem p hq) hmem'
      · have : p.1 ∈ l.map Prod.fst := heq ▸ List.mem_map.mpr ⟨q, hq, rfl⟩
        exact (List.nodup_cons.mp (by simpa using hnd)).1 this
    · exact (List.nodup_cons.mp (by simpa using hnd)).2

theorem blendDict_eq_mergeAll (cf cb pop : List (PId × ℚ))
    (cfw cbw popw : ℚ) (h : (cf.map Prod.fst).Nodup) :
    blendDict cf cb pop cfw cbw popw =
      mergeAll [(cfw, cf), (cbw, cb), (popw, pop)] := by
  rw [blendDict, mergeAll]
  rw [foldl_dset_eq_mergeOne cf cfw [] (by intro p _ hc; cases hc) h]
  rfl

/-! ### `uniqueFirst` (pandas `unique`) lemmas -/

theorem mem_uniqueAux {α : Type} [DecidableEq α] (seen : List α)
    (l : List α) (a : α) :
    a ∈ uniqueAux seen l ↔ a ∈ l ∧ a ∉ seen := by
  induction l generalizing seen with
  | nil => simp [uniqueAux]
  | cons b l ih =>
    by_cases hb : b ∈ seen
    · rw [uniqueAux, if_pos hb, ih]
      simp only [List.mem_cons]
      constructor
      · rintro ⟨h1, h2⟩
        exact ⟨Or.inr h1, h2⟩
      · rintro ⟨h1 | h1, h2⟩
        · subst h1; exact absurd hb h2
        · exact ⟨h1, h2⟩
    · rw [uniqueAux, if_neg hb]
      simp only [List.mem_cons, ih]
      constructor
      · rintro (rfl | ⟨h1, h2⟩)
        · exact ⟨Or.inl rfl, hb⟩
        · exact ⟨Or.inr h1, fun hc => h2 (Or.inr hc)⟩
      · rintro ⟨rfl | h1, h2⟩
        · exact Or.inl rfl
        · by_cases hab : a = b
          · exact Or.inl hab
          · refine Or.inr ⟨h1, fun hc => ?_⟩
            rcases hc with hc | hc
            · exact hab hc
            · exact h2 hc

theorem mem_uniqueFirst {α : Type} [DecidableEq α] (l : List α) (a : α) :
    a ∈ uniqueFirst l ↔ a ∈ l := by
  simp [uniqueFirst, mem_uniqueAux]

theorem nodup_uniqueAux {α : Type} [DecidableEq α] (seen : List α)
    (l : List α) : (uniqueAux seen l).Nodup := by
  induction l generalizing seen with
  | nil => simp [uniqueAux]
  | cons b l ih =>
    by_cases hb : b ∈ seen
    · rw [uniqueAux, if_pos hb]
      exact ih seen
    · rw [uniqueAux, if_neg hb]
      refine List.Nodup.cons ?_ (ih (b :: seen))
      intro hc
      exact ((mem_uniqueAux (b :: seen) l b).mp hc).2 (List.mem_cons_self b seen)

theorem nodup_uniqueFirst {α : Type} [DecidableEq α] (l : List α) :
    (uniqueFirst l).Nodup :=
  nodup_uniqueAux [] l

/-! ### Sort-and-truncate lemmas -/

theorem mem_of_mem_sort_take {α : Type} (l : List α) (le : α → α → Bool)
    (n : Nat) (a : α) (h : a ∈ (l.mergeSort le).take n) : a ∈ l :=
  List.mem_mergeSort.mp (List.mem_of_mem_take h)

theorem nodup_keys_sort_take (l : List (PId × ℚ))
    (le : PId × ℚ → PId × ℚ → Bool) (n : Nat)
    (h : (l.map Prod.fst).Nodup) :
    (((l.mergeSort le).take n).map Prod.fst).Nodup := by
  have hperm : List.Perm ((l.mergeSort le).map Prod.fst) (l.map Prod.fst) :=
    (List.mergeSort_perm l le).map Prod.fst
  have hnd : ((l.mergeSort le).map Prod.fst).Nodup := hperm.nodup_iff.mpr h
  rw [List.map_take]
  exact (List.take_sublist n _).nodup hnd

/-! ### Interaction-index lemmas -/

theorem mem_get_user_interactions (sys : HybridRecommendationSystem)
    (uid : UId) (row : Interaction) (hrow : row ∈ sys.interactions_df)
    (huser : row.userId = uid) :
    row.productId ∈ get_user_interactions sys uid := by
  unfold get_user_interactions
  rw [if_pos (List.mem_map.mpr ⟨row, hrow, huser⟩), mem_uniqueFirst]
  exact List.mem_map.mpr
    ⟨row, List.mem_filter.mpr ⟨hrow, by simp [huser]⟩, rfl⟩

/-! ### Collaborative-scorer lemmas -/

theorem mem_products_to_predict (sys : HybridRecommendationSystem)
    (uid : UId) (pid : PId) :
    pid ∈ products_to_predict sys uid ↔
      pid ∈ uniqueFirst sys.products_df ∧
        pid ∉ get_user_interactions sys uid := by
  rw [products_to_predict, List.mem_filter]
  simp only [decide_eq_true_eq]

theorem nodup_products_to_predict (sys : HybridRecommendationSystem)
    (uid : UId) : (products_to_predict sys uid).Nodup :=
  (nodup_uniqueFirst sys.products_df).filter _

theorem mem_collaborative_predictions (sys : HybridRecommendationSystem)
    (uid : UId) (p : PId × ℚ)
    (h : p ∈ collaborative_predictions sys uid) :
    p.1 ∈ products_to_predict sys uid ∧
      ∃ a b c, sys.svd_model uid p.1 = some a ∧
        sys.nmf_model uid p.1 = some b ∧ sys.knn_model uid p.1 = some c ∧
        p.2 = 0.4 * a + 0.2 * b + 0.4 * c := by
  rcases List.mem_filterMap.mp h with ⟨pid, hpid, hf⟩
  cases hs : sys.svd_model uid pid with
  | none => rw [hs] at hf; exact absurd hf (by simp)
  | some a =>
    cases hm : sys.nmf_model uid pid with
    | none => rw [hs, hm] at hf; exact absurd hf (by simp)
    | some b =>
      cases hk : sys.knn_model uid pid with
      | none => rw [hs, hm, hk] at hf; exact absurd hf (by simp)
      | some c =>
        rw [hs, hm, hk] at hf
        have hp : p = (pid, 0.4 * a + 0.2 * b + 0.4 * c) :=
          (Option.some.inj hf).symm
        subst hp
        exact ⟨hpid, a, b, c, hs, hm, hk, rfl⟩

theorem mem_collaborative_predictions_of_some
    (sys : HybridRecommendationSystem) (uid : UId) (pid : PId) (a b c : ℚ)
    (hpid : pid ∈ products_to_predict sys uid)
    (hs : sys.svd_model uid pid = some a)
    (hm : sys.nmf_model uid pid = some b)
    (hk : sys.knn_model uid pid = some c) :
    (pid, 0.4 * a + 0.2 * b + 0.4 * c) ∈ collaborative_predictions sys uid := by
  apply List.mem_filterMap.mpr
  exact ⟨pid, hpid, by rw [hs, hm, hk]⟩

theorem map_fst_filterMap_sublist (f : PId → Option (PId × ℚ))
    (hf : ∀ a p, f a = some p → p.1 = a) (l : List PId) :
    ((l.filterMap f).map Prod.fst).Sublist l := by
  induction l with
  | nil => simp
  | cons a l ih =>
    rw [List.filterMap_cons]
    cases hfa : f a with
    | none => exact ih.trans (List.sublist_cons_self a l)
    | some p =>
      rw [List.map_cons, hf a p hfa]
      exact ih.cons₂ a

theorem keys_collaborative_predictions_sublist
    (sys : HybridRecommendationSystem) (uid : UId) :
    ((collaborative_predictions sys uid).map Prod.fst).Sublist
      (products_to_predict sys uid) := by
  apply map_fst_filterMap_sublist
  intro a p hfa
  cases hs : sys.svd_model uid a with
  | none => rw [hs] at hfa; exact absurd hfa (by simp)
  | some x =>
    cases hm : sys.nmf_model uid a with
    | none => rw [hs, hm] at hfa; exact absurd hfa (by simp)
    | some y =>
      cases hk : sys.knn_model uid a with
      | none => rw [hs, hm, hk] at hfa; exact absurd hfa (by simp)
      | some z =>
        rw [hs, hm, hk] at hfa
        rw [← Option.some.inj hfa]

theorem nodup_keys_collaborative (sys : HybridRecommendationSystem)
    (uid : UId) (n : Nat) :
    ((collaborative_recommendations sys uid n).map Prod.fst).Nodup := by
  apply nodup_keys_sort_take
  exact (keys_collaborative_predictions_sublist sys uid).nodup
    (nodup_products_to_predict sys uid)

/-! ### Content-scorer lemmas -/

/-- Specification-side abbreviation: the total similarity mass one seed
product contributes to a candidate — the sum of the entries keyed by the
candidate in the seed's similarity column, `0` when the seed has no
column. -/
def seedContribution (sys : HybridRecommendationSystem) (seed : PId)
    (k : PId) : ℚ :=
  match simColumn sys seed with
  | none => 0
  | some col => keySum col k

theorem mem_keys_entry_fold (seeds : List PId) (pid : PId)
    (col : List (PId × ℚ)) (acc : List (PId × ℚ)) (k : PId)
    (h : k ∈ (col.foldl (content_entry_step seeds pid) acc).map Prod.fst) :
    k ∈ acc.map Prod.fst ∨ k ∉ seeds := by
  induction col generalizing acc with
  | nil => exact Or.inl h
  | cons e col ih =>
    rw [List.foldl_cons] at h
    rcases ih _ h with h' | h'
    · rw [content_entry_step] at h'
      by_cases hg : e.1 ∉ seeds ∧ e.1 ≠ pid
      · rw [if_pos hg] at h'
        rcases (mem_keys_dadd acc e.1 k e.2).mp h' with h'' | rfl
        · exact Or.inl h''
        · exact Or.inr hg.1
      · rw [if_neg hg] at h'
        exact Or.inl h'
    · exact Or.inr h'

theorem nodup_keys_entry_fold (seeds : List PId) (pid : PId)
    (col : List (PId × ℚ)) (acc : List (PId × ℚ))
    (h : (acc.map Prod.fst).Nodup) :
    ((col.foldl (content_entry_step seeds pid) acc).map Prod.fst).Nodup := by
  induction col generalizing acc with
  | nil => exact h
  | cons e col ih =>
    rw [List.foldl_cons]
    apply ih
    rw [content_entry_step]
    by_cases hg : e.1 ∉ seeds ∧ e.1 ≠ pid
    · rw [if_pos hg]
      exact nodup_keys_dadd acc e.1 e.2 h
    · rwa [if_neg hg]

theorem mem_keys_seed_fold (sys : HybridRecommendationSystem)
    (seeds : List PId) (l : List PId) (acc : List (PId × ℚ)) (k : PId)
    (h : k ∈ (l.foldl (content_seed_step sys seeds) acc).map Prod.fst) :
    k ∈ acc.map Prod.fst ∨ k ∉ seeds := by
  induction l generalizing acc with
  | nil => exact Or.inl h
  | cons s l ih =>
    rw [List.foldl_cons] at h
    rcases ih _ h with h' | h'
    · rw [content_seed_step] at h'
      cases hcol : simColumn sys s with
      | none => rw [hcol] at h'; exact Or.inl h'
      | some col =>
        rw [hcol] at h'
        exact mem_keys_entry_fold seeds s col acc k h'
    · exact Or.inr h'

theorem nodup_keys_seed_fold (sys : HybridRecommendationSystem)
    (seeds : List PId) (l : List PId) (acc : List (PId × ℚ))
    (h : (acc.map Prod.fst).Nodup) :
    ((l.foldl (content_seed_step sys seeds) acc).map Prod.fst).Nodup := by
  induction l generalizing acc with
  | nil => exact h
  | cons s l ih =>
    rw [List.foldl_cons]
    apply ih
    rw [content_seed_step]
    cases hcol : simColumn sys s with
    | none => exact h
    | some col => exact nodup_keys_entry_fold seeds s col acc h

theorem mem_keys_content_accumulate (sys : HybridRecommendationSystem)
    (seeds : List PId) (k : PId)
    (h : k ∈ (content_accumulate sys seeds).map Prod.fst) : k ∉ seeds := by
  rcases mem_keys_seed_fold sys seeds seeds [] k h with h' | h'
  · cases h'
  · exact h'

theorem nodup_keys_content_accumulate (sys : HybridRecommendationSystem)
    (seeds : List PId) :
    ((content_accumulate sys seeds).map Prod.fst).Nodup :=
  nodup_keys_seed_fold sys seeds seeds [] List.nodup_nil

theorem dgetD_entry_fold (seeds : List PId) (pid : PId)
    (col : List (PId × ℚ)) (acc : List (PId × ℚ)) (k : PId)
    (hseed : pid ∈ seeds) (hk : k ∉ seeds) :
    dgetD (col.foldl (content_entry_step seeds pid) acc) k =
      dgetD acc k + keySum col k := by
  induction col generalizing acc with
  | nil => rw [keySum_nil, add_zero]; rfl
  | cons e col ih =>
    rw [List.foldl_cons, ih, keySum_cons, content_entry_step]
    by_cases he : e.1 = k
    · have hg : e.1 ∉ seeds ∧ e.1 ≠ pid := by
        refine ⟨he ▸ hk, fun hc => ?_⟩
        exact hk (he ▸ hc ▸ hseed)
      rw [if_pos hg, if_pos he, he, dgetD_dadd_self]
      ring
    · rw [if_neg he, zero_add]
      by_cases hg : e.1 ∉ seeds ∧ e.1 ≠ pid
      · rw [if_pos hg, dgetD_dadd_other acc e.1 k e.2 (fun hc => he hc.symm)]
      · rw [if_neg hg]

theorem content_seed_step_none (sys : HybridRecommendationSystem)
    (seeds : List PId) (acc : List (PId × ℚ)) (s : PId)
    (h : simColumn sys s = none) : content_seed_step sys seeds acc s = acc := by
  rw [content_seed_step, h]

theorem content_seed_step_some (sys : HybridRecommendationSystem)
    (seeds : List PId) (acc : List (PId × ℚ)) (s : PId)
    (col : List (PId × ℚ)) (h : simColumn sys s = some col) :
    content_seed_step sys seeds acc s =
      col.foldl (content_entry_step seeds s) acc := by
  rw [content_seed_step, h]

theorem seedContribution_none (sys : HybridRecommendationSystem) (s k : PId)
    (h : simColumn sys s = none) : seedContribution sys s k = 0 := by
  rw [seedContribution, h]

theorem seedContribution_some (sys : HybridRecommendationSystem) (s k : PId)
    (col : List (PId × ℚ)) (h : simColumn sys s = some col) :
    seedContribution sys s k = keySum col k := by
  rw [seedContribution, h]

theorem dgetD_seed_fold (sys : HybridRecommendationSystem)
    (seeds : List PId) (l : List PId) (acc : List (PId × ℚ)) (k : PId)
    (hl : ∀ s ∈ l, s ∈ seeds) (hk : k ∉ seeds) :
    dgetD (l.foldl (content_seed_step sys seeds) acc) k =
      dgetD acc k + ((l.map (fun s => seedContribution sys s k)).sum) := by
  induction l generalizing acc with
  | nil => simp
  | cons s l ih =>
    rw [List.foldl_cons, ih _ (fun x hx => hl x (List.mem_cons_of_mem s hx)),
      List.map_cons, List.sum_cons]
    cases hcol : simColumn sys s with
    | none =>
      rw [content_seed_step_none sys seeds acc s hcol,
        seedContribution_none sys s k hcol]
      ring
    | some col =>
      rw [content_seed_step_some sys seeds acc s col hcol,
        seedContribution_some sys s k col hcol,
        dgetD_entry_fold seeds s col acc k (hl s (List.mem_cons_self s l)) hk]
      ring

theorem dgetD_content_accumulate (sys : HybridRecommendationSystem)
    (seeds : List PId) (k : PId) (hk : k ∉ seeds) :
    dgetD (content_accumulate sys seeds) k =
      ((seeds.map (fun s => seedContribution sys s k)).sum) := by
  rw [content_accumulate, dgetD_seed_fold sys seeds seeds [] k
    (fun s hs => hs) hk]
  have h0 : dgetD [] k = 0 := rfl
  rw [h0, zero_add]

/-! ### Popularity-scorer lemmas -/

theorem mem_popularity_recommendations (sys : HybridRecommendationSystem)
    (uid : UId) (n : Nat) (p : PId × ℚ)
    (h : p ∈ popularity_recommendations sys uid n) :
    p ∈ sys.product_popularity ∧ p.1 ∉ get_user_interactions sys uid := by
  rw [popularity_recommendations] at h
  rcases List.mem_filter.mp (List.mem_of_mem_take h) with ⟨hmem, hcond⟩
  exact ⟨hmem, by simpa using hcond⟩

theorem keys_popularity_sublist (sys : HybridRecommendationSystem)
    (uid : UId) (n : Nat) :
    ((popularity_recommendations sys uid n).map Prod.fst).Sublist
      (sys.product_popularity.map Prod.fst) := by
  rw [popularity_recommendations]
  exact ((List.take_sublist _ _).trans (List.filter_sublist _)).map Prod.fst

/-! ### Enrichment lemmas -/

theorem map_id_filterMap_sublist
    (f : PId × ℚ → Option RecommendationResult)
    (hf : ∀ p r, f p = some r → r._id = p.1) (l : List (PId × ℚ)) :
    ((l.filterMap f).map (fun r => r._id)).Sublist (l.map Prod.fst) := by
  induction l with
  | nil => simp
  | cons p l ih =>
    rw [List.filterMap_cons]
    cases hfp : f p with
    | none => exact ih.trans (List.sublist_cons_self _ _)
    | some r =>
      rw [List.map_cons, hf p r hfp]
      exact ih.cons₂ _

theorem enrich_property (db : List Product) (p : PId × ℚ)
    (r : RecommendationResult)
    (h : ((db.find? (fun item => decide (item._id = p.1))).map
      (fun pd => format_product_details pd p.2)) = some r) :
    r._id = p.1 := by
  cases hf : db.find? (fun item => decide (item._id = p.1)) with
  | none => rw [hf] at h; exact absurd h (by simp)
  | some pd =>
    rw [hf] at h
    have hr : r = format_product_details pd p.2 := (Option.some.inj h).symm
    subst hr
    simpa using List.find?_some hf

theorem enrich_ids_sublist (db : List Product) (l : List (PId × ℚ)) :
    ((enrich_with_details db l).map (fun r => r._id)).Sublist
      (l.map Prod.fst) :=
  map_id_filterMap_sublist _ (fun p r h => enrich_property db p r h) l

theorem mem_enrich_with_details (db : List Product) (l : List (PId × ℚ))
    (r : RecommendationResult) (h : r ∈ enrich_with_details db l) :
    ∃ p ∈ l, r._id = p.1 := by
  rw [enrich_with_details] at h
  rcases List.mem_filterMap.mp h with ⟨p, hp, hfp⟩
  exact ⟨p, hp, enrich_property db p r hfp⟩

theorem length_enrich_le (db : List Product) (l : List (PId × ℚ)) :
    (enrich_with_details db l).length ≤ l.length := by
  rw [enrich_with_details]
  exact List.length_filterMap_le _ _

/-! ### Content-output and blend-key lemmas -/

theorem mem_content_based_recommendations (sys : HybridRecommendationSystem)
    (uid : UId) (n : Nat) (p : PId × ℚ)
    (h : p ∈ content_based_recommendations sys uid n) :
    ∃ q ∈ content_accumulate sys (get_user_interactions sys uid),
      p = (q.1, q.2 / ((get_user_interactions sys uid).length : ℚ)) := by
  rw [content_based_recommendations] at h
  by_cases hlen : (get_user_interactions sys uid).length = 0
  · rw [if_pos hlen] at h
    cases h
  · rw [if_neg hlen] at h
    have h' := mem_of_mem_sort_take _ _ _ _ h
    rcases List.mem_map.mp h' with ⟨q, hq, hpq⟩
    exact ⟨q, hq, hpq.symm⟩

theorem mem_keys_dset_fold (l : List (PId × ℚ)) (w : ℚ)
    (d : List (PId × ℚ)) (k : PId)
    (h : k ∈ (l.foldl (fun d p => dset d p.1 (w * p.2)) d).map Prod.fst) :
    k ∈ d.map Prod.fst ∨ k ∈ l.map Prod.fst := by
  induction l generalizing d with
  | nil => exact Or.inl h
  | cons p l ih =>
    rw [List.foldl_cons] at h
    rcases ih _ h with h' | h'
    · rcases (mem_keys_dset d p.1 k (w * p.2)).mp h' with h'' | rfl
      · exact Or.inl h''
      · exact Or.inr (by simp)
    · exact Or.inr (List.mem_cons_of_mem _ (by simpa using h'))

theorem nodup_keys_dset_fold (l : List (PId × ℚ)) (w : ℚ)
    (d : List (PId × ℚ)) (h : (d.map Prod.fst).Nodup) :
    ((l.foldl (fun d p => dset d p.1 (w * p.2)) d).map Prod.fst).Nodup := by
  induction l generalizing d with
  | nil => exact h
  | cons p l ih =>
    rw [List.foldl_cons]
    exact ih _ (nodup_keys_dset d p.1 (w * p.2) h)

theorem mem_keys_blendDict (cf cb pop : List (PId × ℚ)) (cfw cbw popw : ℚ)
    (k : PId) (h : k ∈ (blendDict cf cb pop cfw cbw popw).map Prod.fst) :
    k ∈ cf.map Prod.fst ∨ k ∈ cb.map Prod.fst ∨ k ∈ pop.map Prod.fst := by
  rw [blendDict, ← mergeOne_def, ← mergeOne_def] at h
  rcases (mem_keys_mergeOne _ popw pop k).mp h with h' | h'
  · rcases (mem_keys_mergeOne _ cbw cb k).mp h' with h'' | h''
    · rcases mem_keys_dset_fold cf cfw [] k h'' with h3 | h3
      · cases h3
      · exact Or.inl h3
    · exact Or.inr (Or.inl h'')
  · exact Or.inr (Or.inr h')

theorem nodup_keys_blendDict (cf cb pop : List (PId × ℚ))
    (cfw cbw popw : ℚ) :
    ((blendDict cf cb pop cfw cbw popw).map Prod.fst).Nodup := by
  rw [blendDict, ← mergeOne_def, ← mergeOne_def]
  exact nodup_keys_mergeOne _ popw pop
    (nodup_keys_mergeOne _ cbw cb
      (nodup_keys_dset_fold cf cfw [] List.nodup_nil))

/-! ### Cold-start handler lemmas -/

theorem handle_fresh_cache_spec (pop : List (PId × ℚ)) (db : List Product)
    (n : Nat) (cache : Option CacheEntry) (now : ℚ) :
    (handle_cold_start_fresh pop db n cache now).2 = cache ∨
    ((handle_cold_start_fresh pop db n cache now).2 =
        some ⟨now, (handle_cold_start_fresh pop db n cache now).1⟩ ∧
      (handle_cold_start_fresh pop db n cache now).1 ≠ []) := by
  rw [handle_cold_start_fresh]
  by_cases h1 : pop.isEmpty
  · rw [if_pos h1]
    exact Or.inl rfl
  · rw [if_neg h1]
    by_cases h2 : db.isEmpty
    · rw [if_pos h2]
      exact Or.inl rfl
    · rw [if_neg h2]
      by_cases h3 : (pop.take n).isEmpty
      · rw [if_pos h3]
        exact Or.inl rfl
      · rw [if_neg h3]
        by_cases h4 : (cold_start_compute pop db n).isEmpty
        · rw [if_pos h4]
          exact Or.inl rfl
        · rw [if_neg h4]
          refine Or.inr ⟨rfl, ?_⟩
          simpa [List.isEmpty_iff] using h4

theorem handle_cold_start_user_none (pop : List (PId × ℚ))
    (db : List Product) (n : Nat) (ttl : ℚ) (now : ℚ) :
    handle_cold_start_user pop db n ttl none now =
      handle_cold_start_fresh pop db n none now := rfl

theorem handle_cold_start_user_hit (pop : List (PId × ℚ))
    (db : List Product) (n : Nat) (ttl : ℚ) (e : CacheEntry) (now : ℚ)
    (h : now - e.timestamp < ttl) :
    handle_cold_start_user pop db n ttl (some e) now =
      (e.recommendations, some e) := by
  rw [handle_cold_start_user, if_pos h]

theorem handle_cold_start_user_expired (pop : List (PId × ℚ))
    (db : List Product) (n : Nat) (ttl : ℚ) (e : CacheEntry) (now : ℚ)
    (h : ¬ (now - e.timestamp < ttl)) :
    handle_cold_start_user pop db n ttl (some e) now =
      handle_cold_start_fresh pop db n (some e) now := by
  rw [handle_cold_start_user, if_neg h]

/-! ### Concrete fixtures used by the witness theorems -/

/-- A small concrete catalog document. -/
def wProduct (i : String) : Product :=
  { _id := i, name := "name-" ++ i, category := "cat", brand := "brand",
    description := none, price := some 10, listPrice := none,
    images := none, colors := none, sizes := none, tags := none,
    countInStock := some 3, slug := none, avgRating := none,
    numReviews := none, numSales := none, isPublished := none,
    createdAt := none, updatedAt := none,
    ratingDistribution := .fromList [(5, 3)] }

/-- A small concrete recommendation system: user `U1` interacted with `P1`;
the SVD oracle fails on `P4`; similarity and popularity follow the worked
scenario of the specification. -/
def wSys : HybridRecommendationSystem :=
  { svd_model := fun _ p => if p = "P4" then none else some 3
    nmf_model := fun _ _ => some 2
    knn_model := fun _ _ => some 4
    product_similarity := [("P1", [("P1", 1), ("P2", 0.9), ("P3", 0.4)]),
                           ("P2", [("P1", 0.9), ("P2", 1)]),
                           ("P3", [("P1", 0.4), ("P3", 1)])]
    product_popularity := [("P4", 5), ("P5", 4), ("P2", 3), ("P3", 2)]
    products_df := ["P1", "P2", "P3", "P4", "P5"]
    interactions_df := [⟨"U1", "P1"⟩]
    db_products := [wProduct "P1", wProduct "P2", wProduct "P3",
                    wProduct "P4", wProduct "P5"] }

/-- A concrete cache entry with one enriched recommendation. -/
def wEntry : CacheEntry :=
  ⟨0, [format_product_details (wProduct "P4") 5]⟩

/-! ### Claim theorems -/

/-- C4: on a cold-start cache hit (entry timestamp within the TTL of the
current time), `handle_cold_start_user` returns the cached list unchanged
and leaves the cache untouched; consequently a second in-TTL call returns
the identical list even when the popularity table, the catalog, and the
requested size all changed between the calls. -/
theorem cold_start_cache_hit_determinism (pop pop' : List (PId × ℚ))
    (db db' : List Product) (n n' : Nat) (ttl : ℚ) (e : CacheEntry)
    (now now' : ℚ) (h : now - e.timestamp < ttl)
    (h' : now' - e.timestamp < ttl) :
    handle_cold_start_user pop db n ttl (some e) now =
      (e.recommendations, some e) ∧
    (handle_cold_start_user pop db n ttl (some e) now).1 =
      (handle_cold_start_user pop' db' n' ttl (some e) now').1 := by
  constructor
  · exact handle_cold_start_user_hit pop db n ttl e now h
  · rw [handle_cold_start_user_hit pop db n ttl e now h,
      handle_cold_start_user_hit pop' db' n' ttl e now' h']

/-- Witness for C4 at concrete inputs: the cached list is served unchanged,
ignoring a changed popularity table and catalog. -/
theorem cold_start_cache_hit_determinism_witness :
    handle_cold_start_user [] [] 3 120 (some wEntry) 1 =
      (wEntry.recommendations, some wEntry) ∧
    (handle_cold_start_user [] [] 3 120 (some wEntry) 1).1 =
      (handle_cold_start_user [("x", 1)] [wProduct "x"] 5 120 (some wEntry)
        2).1 :=
  cold_start_cache_hit_determinism [] [("x", 1)] [] [wProduct "x"] 3 5 120
    wEntry 1 2 (by norm_num [wEntry]) (by norm_num [wEntry])

/-- C9: when a first cold-start call (no cache) writes a cache entry, a
second call within the TTL returns exactly the first call's list whatever
`n` it requests — the cached list's length is fixed by the writing call,
not by the current request. -/
theorem cold_start_cache_ignores_current_n (pop : List (PId × ℚ))
    (db : List Product) (n₁ n₂ : Nat) (ttl : ℚ) (t₀ now : ℚ)
    (hfresh : (handle_cold_start_user pop db n₁ ttl none t₀).2 ≠ none)
    (hvalid : now - t₀ < ttl) :
    (handle_cold_start_user pop db n₂ ttl
        (handle_cold_start_user pop db n₁ ttl none t₀).2 now).1 =
      (handle_cold_start_user pop db n₁ ttl none t₀).1 := by
  rw [handle_cold_start_user_none] at hfresh ⊢
  rcases handle_fresh_cache_spec pop db n₁ none t₀ with hspec | hspec
  · exact absurd hspec hfresh
  · rw [hspec.1, handle_cold_start_user_hit _ _ _ _ _ _ hvalid]

/-- Witness for C9: the first call requests 1 item and writes the cache; a
second call requesting 3 items returns the same single-item list. -/
theorem cold_start_cache_ignores_current_n_witness :
    (handle_cold_start_user wSys.product_popularity wSys.db_products 3 120
        (handle_cold_start_user wSys.product_popularity wSys.db_products 1
          120 none 0).2 10).1 =
      (handle_cold_start_user wSys.product_popularity wSys.db_products 1 120
        none 0).1 ∧
    (handle_cold_start_user wSys.product_popularity wSys.db_products 1 120
      none 0).1.length = 1 :=
  ⟨cold_start_cache_ignores_current_n wSys.product_popularity
      wSys.db_products 1 3 120 0 10 (by decide) (by norm_num),
    by decide⟩

/-- C10: `handle_cold_start_user` never stores an empty list: an execution
that returns an empty list leaves the cache state unchanged, and whenever
the cache state does change, the new entry holds exactly the non-empty list
that was returned. -/
theorem cold_start_cache_write_nonempty (pop : List (PId × ℚ))
    (db : List Product) (n : Nat) (ttl : ℚ) (cache : Option CacheEntry)
    (now : ℚ) :
    ((handle_cold_start_user pop db n ttl cache now).1 = [] →
      (handle_cold_start_user pop db n ttl cache now).2 = cache) ∧
    ((handle_cold_start_user pop db n ttl cache now).2 ≠ cache →
      ∃ e, (handle_cold_start_user pop db n ttl cache now).2 = some e ∧
        e.recommendations = (handle_cold_start_user pop db n ttl cache now).1 ∧
        e.recommendations ≠ []) := by
  cases cache with
  | none =>
    rw [handle_cold_start_user_none]
    rcases handle_fresh_cache_spec pop db n none now with hspec | hspec
    · exact ⟨fun _ => hspec, fun hne => absurd hspec hne⟩
    · refine ⟨fun hemp => absurd hemp hspec.2, fun _ => ?_⟩
      exact ⟨⟨now, (handle_cold_start_fresh pop db n none now).1⟩,
        hspec.1, rfl, hspec.2⟩
  | some e =>
    by_cases hv : now - e.timestamp < ttl
    · rw [handle_cold_start_user_hit pop db n ttl e now hv]
      exact ⟨fun _ => rfl, fun hne => absurd rfl hne⟩
    · rw [handle_cold_start_user_expired pop db n ttl e now hv]
      rcases handle_fresh_cache_spec pop db n (some e) now with hspec | hspec
      · exact ⟨fun _ => hspec, fun hne => absurd hspec hne⟩
      · refine ⟨fun hemp => absurd hemp hspec.2, fun _ => ?_⟩
        exact ⟨⟨now, (handle_cold_start_fresh pop db n (some e) now).1⟩,
          hspec.1, rfl, hspec.2⟩

/-- Witness for C10: with an empty catalog the computed list is empty and
the (absent) cache stays absent. -/
theorem cold_start_cache_write_nonempty_witness :
    (handle_cold_start_user [("P4", 5)] [] 3 120 none 7).2 = none :=
  (cold_start_cache_write_nonempty [("P4", 5)] [] 3 120 none 7).1 (by decide)

/-- C5: when the anchor product has no row in the similarity matrix,
`get_recommendations_for_product` delegates to the cold-start handler of the
`getRecommendations` endpoint, so its output (and resulting cache state)
coincides exactly with the cold-start path taken by `getRecommendations`
for any user with no interaction history, at the same `n` and cache
state. -/
theorem anchor_missing_delegates_to_cold_start
    (sys : HybridRecommendationSystem) (uid uid' : UId) (anchor : PId)
    (n : Nat) (cw cfw pw : ℚ) (cache : Option CacheEntry) (now : ℚ)
    (hanchor : anchor ∉ sys.product_similarity.map (fun r => r.1))
    (hcold : uid' ∉ sys.interactions_df.map (fun i => i.userId)) :
    get_recommendations_for_product sys uid anchor n cw cfw pw cache now =
      getRecommendations_coldPath sys n cache now ∧
    getRecommendations sys uid' n cache now =
      getRecommendations_coldPath sys n cache now ∧
    get_recommendations_for_product sys uid anchor n cw cfw pw cache now =
      getRecommendations sys uid' n cache now := by
  have h1 : get_recommendations_for_product sys uid anchor n cw cfw pw
      cache now = getRecommendations_coldPath sys n cache now := by
    rw [get_recommendations_for_product, if_pos hanchor]
    rfl
  have h2 : getRecommendations sys uid' n cache now =
      getRecommendations_coldPath sys n cache now := by
    rw [getRecommendations, if_pos hcold]
  exact ⟨h1, h2, h1.trans h2.symm⟩

/-- Witness for C5: anchor `PX` is not in the similarity matrix and user
`U9` has no interactions, so both entry points produce the same value. -/
theorem anchor_missing_delegates_to_cold_start_witness :
    get_recommendations_for_product wSys "U1" "PX" 3 0.6 0.2 0.2 none 0 =
      getRecommendations wSys "U9" 3 none 0 :=
  (anchor_missing_delegates_to_cold_start wSys "U1" "U9" "PX" 3 0.6 0.2 0.2
    none 0 (by decide) (by decide)).2.2

theorem enrich_with_details_db_nil (l : List (PId × ℚ)) :
    enrich_with_details [] l = [] := by
  rw [enrich_with_details]
  exact List.filterMap_eq_nil_iff.mpr (fun p _ => rfl)

/-- C8: on data-availability gaps both entry points produce an empty list
(the embedding is a total function, so no exception can escape): with an
empty catalog both `getRecommendations` and `get_recommendations_for_product`
return `[]` on every path, and with an empty popularity table the cold-start
handler returns `[]` for any catalog and any `n`. -/
theorem empty_on_data_gaps (sys : HybridRecommendationSystem) (uid : UId)
    (anchor : PId) (n : Nat) (cw cfw pw : ℚ) (now : ℚ)
    (hdb : sys.db_products = []) :
    (getRecommendations sys uid n none now).1 = [] ∧
    (get_recommendations_for_product sys uid anchor n cw cfw pw none
      now).1 = [] ∧
    (∀ (db : List Product) (m : Nat) (ttl t : ℚ),
      (handle_cold_start_user [] db m ttl none t).1 = []) := by
  have hcold : ∀ (pop : List (PId × ℚ)) (m : Nat) (ttl t : ℚ),
      (handle_cold_start_user pop [] m ttl none t).1 = [] := by
    intro pop m ttl t
    rw [handle_cold_start_user_none, handle_cold_start_fresh]
    by_cases h1 : pop.isEmpty
    · rw [if_pos h1]
    · rw [if_neg h1, if_pos (by rw [List.isEmpty_iff])]
  refine ⟨?_, ?_, ?_⟩
  · rw [getRecommendations]
    by_cases hu : uid ∉ sys.interactions_df.map (fun i => i.userId)
    · rw [if_pos hu, getRecommendations_coldPath, hdb]
      exact hcold sys.product_popularity n 120 now
    · rw [if_neg hu]
      show get_hybrid_recommendations sys uid n 0.5 0.3 0.2 = []
      rw [get_hybrid_recommendations, hdb]
      exact enrich_with_details_db_nil _
  · rw [get_recommendations_for_product]
    by_cases ha : anchor ∉ sys.product_similarity.map (fun r => r.1)
    · rw [if_pos ha, hdb]
      exact hcold sys.product_popularity n 120 now
    · rw [if_neg ha]
      show enrich_with_details sys.db_products _ = []
      rw [hdb]
      exact enrich_with_details_db_nil _
  · intro db m ttl t
    rw [handle_cold_start_user_none, handle_cold_start_fresh,
      if_pos (by rw [List.isEmpty_iff])]

/-- Witness for C8: a system with an empty catalog returns empty lists from
both entry points. -/
theorem empty_on_data_gaps_witness :
    (getRecommendations
      { wSys with db_products := [] } "U1" 3 none 0).1 = [] ∧
    (get_recommendations_for_product
      { wSys with db_products := [] } "U1" "P1" 3 0.6 0.2 0.2 none 0).1 = [] :=
  ⟨(empty_on_data_gaps { wSys with db_products := [] } "U1" "P1" 3 0.6 0.2
      0.2 0 rfl).1,
    (empty_on_data_gaps { wSys with db_products := [] } "U1" "P1" 3 0.6 0.2
      0.2 0 rfl).2.1⟩

theorem mem_keys_rating_fold (l : List (Nat × Int))
    (d : List (String × Int)) (k : String) :
    k ∈ ((l.foldl (fun d p => dset d (toString p.1) p.2) d).map Prod.fst) ↔
      k ∈ d.map Prod.fst ∨ ∃ rc ∈ l, toString rc.1 = k := by
  induction l generalizing d with
  | nil => simp
  | cons p l ih =>
    rw [List.foldl_cons, ih, mem_keys_dset]
    constructor
    · rintro ((h' | rfl) | ⟨rc, hrc, he⟩)
      · exact Or.inl h'
      · exact Or.inr ⟨p, List.mem_cons_self p l, rfl⟩
      · exact Or.inr ⟨rc, List.mem_cons_of_mem p hrc, he⟩
    · rintro (h' | ⟨rc, hrc, he⟩)
      · exact Or.inl (Or.inl h')
      · rcases List.mem_cons.mp hrc with rfl | hmem
        · exact Or.inl (Or.inr he.symm)
        · exact Or.inr ⟨rc, hmem, he⟩

/-- C6 counterexample: for a catalog entry whose rating-distribution field
is the record list `[{rating: 5, count: 3}]`, the enricher's output mapping
is `[("5", 3)]` — it does not contain key `"1"` and no zero defaults are
inserted, refuting the claim that the output always maps all keys
`"1"`..`"5"`. -/
theorem rating_dist_not_normalized_counterexample :
    "1" ∉ ((format_product_details (wProduct "P1") 1).ratingDistribution.map
      Prod.fst) ∧
    (format_product_details (wProduct "P1") 1).ratingDistribution =
      [("5", 3)] := by
  decide

/-- C6 amended: the enricher turns a list-of-`{rating, count}` input into a
mapping keyed by the string form of each rating — containing exactly the
ratings present in the input, with no zero-filling; it passes an
already-keyed mapping through unchanged; only an input that is neither a
list nor a mapping is replaced by the literal all-zero mapping with keys
`"1"`..`"5"`. -/
theorem rating_dist_normalization_amended (pd : Product) (score : ℚ) :
    (format_product_details pd score).ratingDistribution =
      formatRatingDist pd.ratingDistribution ∧
    (∀ d, pd.ratingDistribution = .fromDict d →
      (format_product_details pd score).ratingDistribution = d) ∧
    (pd.ratingDistribution = .other →
      (format_product_details pd score).ratingDistribution =
        [("1", 0), ("2", 0), ("3", 0), ("4", 0), ("5", 0)]) ∧
    (∀ l, pd.ratingDistribution = .fromList l →
      ∀ k : String,
        k ∈ ((format_product_details pd score).ratingDistribution.map
          Prod.fst) ↔ ∃ rc ∈ l, toString rc.1 = k) := by
  have hbase : (format_product_details pd score).ratingDistribution =
      formatRatingDist pd.ratingDistribution := rfl
  refine ⟨hbase, ?_, ?_, ?_⟩
  · intro d h
    rw [hbase, h]
    rfl
  · intro h
    rw [hbase, h]
    rfl
  · intro l h k
    rw [hbase, h, formatRatingDist, mem_keys_rating_fold]
    simp

/-- Witness for the amended C6: rating 5 is present in the input list, so
key "5" is present in the output mapping. -/
theorem rating_dist_normalization_amended_witness :
    "5" ∈ ((format_product_details (wProduct "P1") 1).ratingDistribution.map
      Prod.fst) :=
  ((rating_dist_normalization_amended (wProduct "P1") 1).2.2.2 [(5, 3)] rfl
    "5").mpr ⟨(5, 3), by decide, by decide⟩

/-- C2: a candidate product is scored by the collaborative scorer exactly
when all three oracle predictions succeed for it, in which case the score is
`0.4*svd + 0.2*nmf + 0.4*knn`; any failing prediction excludes the candidate
from the scorer's list (it is not scored as zero), and — the scorer being a
total function whose output is the sorted truncation of the per-candidate
list — a failure never aborts the computation. -/
theorem collaborative_scorer_partial_failure
    (sys : HybridRecommendationSystem) (uid : UId) (n : Nat) (pid : PId)
    (h : pid ∈ products_to_predict sys uid) :
    ((∃ s, (pid, s) ∈ collaborative_predictions sys uid) ↔
      (sys.svd_model uid pid).isSome = true ∧
        (sys.nmf_model uid pid).isSome = true ∧
        (sys.knn_model uid pid).isSome = true) ∧
    (∀ s, (pid, s) ∈ collaborative_predictions sys uid →
      ∃ a b c, sys.svd_model uid pid = some a ∧
        sys.nmf_model uid pid = some b ∧ sys.knn_model uid pid = some c ∧
        s = 0.4 * a + 0.2 * b + 0.4 * c) ∧
    (∀ q ∈ collaborative_recommendations sys uid n,
      q ∈ collaborative_predictions sys uid) := by
  refine ⟨⟨?_, ?_⟩, ?_, ?_⟩
  · rintro ⟨s, hs⟩
    rcases mem_collaborative_predictions sys uid (pid, s) hs with
      ⟨_, a, b, c, ha, hb, hc, _⟩
    refine ⟨?_, ?_, ?_⟩
    · rw [ha]; rfl
    · rw [hb]; rfl
    · rw [hc]; rfl
  · rintro ⟨ha, hb, hc⟩
    rcases Option.isSome_iff_exists.mp ha with ⟨a, ha'⟩
    rcases Option.isSome_iff_exists.mp hb with ⟨b, hb'⟩
    rcases Option.isSome_iff_exists.mp hc with ⟨c, hc'⟩
    exact ⟨0.4 * a + 0.2 * b + 0.4 * c,
      mem_collaborative_predictions_of_some sys uid pid a b c h ha' hb' hc'⟩
  · intro s hs
    exact (mem_collaborative_predictions sys uid (pid, s) hs).2
  · intro q hq
    exact mem_of_mem_sort_take _ _ _ _ hq

/-- Witness for C2: in the concrete system all three oracles succeed on
`P5`, which is scored, while the SVD oracle fails on `P4`, which is
excluded from the scorer's list. -/
theorem collaborative_scorer_partial_failure_witness :
    (∃ s, (("P5" : PId), s) ∈ collaborative_predictions wSys "U1") ∧
    ¬ (∃ s, (("P4" : PId), s) ∈ collaborative_predictions wSys "U1") :=
  ⟨((collaborative_scorer_partial_failure wSys "U1" 10 "P5"
      (by decide)).1).mpr (by decide),
    fun hex =>
      absurd (((collaborative_scorer_partial_failure wSys "U1" 10 "P4"
        (by decide)).1).mp hex).1 (by decide)⟩

/-- C7: for a user with no interactions the content scorer returns the
empty list; and every candidate the content scorer emits carries the sum of
its similarity entries over the user's seed products divided by the total
number of seed products (seeds with no similarity column, or no entry for
the candidate, contribute zero to the sum but still count in the
denominator). -/
theorem content_scorer_mean_over_seeds (sys : HybridRecommendationSystem)
    (uid : UId) (n : Nat) :
    (get_user_interactions sys uid = [] →
      content_based_recommendations sys uid n = []) ∧
    (∀ p ∈ content_based_recommendations sys uid n,
      p.2 = ((get_user_interactions sys uid).map
          (fun s => seedContribution sys s p.1)).sum /
        ((get_user_interactions sys uid).length : ℚ)) := by
  constructor
  · intro hseeds
    rw [content_based_recommendations, if_pos (by rw [hseeds]; rfl)]
  · intro p hp
    rcases mem_content_based_recommendations sys uid n p hp with ⟨q, hq, hpq⟩
    subst hpq
    have hk : q.1 ∉ get_user_interactions sys uid :=
      mem_keys_content_accumulate sys _ q.1 (List.mem_map.mpr ⟨q, hq, rfl⟩)
    have hval :
        dgetD (content_accumulate sys (get_user_interactions sys uid)) q.1 =
          q.2 :=
      dgetD_of_mem_nodup _ q.1 q.2 (by rw [Prod.mk.eta]; exact hq)
        (nodup_keys_content_accumulate sys _)
    have hsum := dgetD_content_accumulate sys
      (get_user_interactions sys uid) q.1 hk
    show q.2 / ((get_user_interactions sys uid).length : ℚ) = _
    rw [← hval, hsum]

/-- Witness for C7: user `U9` has no interactions in the concrete system,
so the content scorer returns the empty list. -/
theorem content_scorer_mean_over_seeds_witness :
    content_based_recommendations wSys "U9" 10 = [] :=
  (content_scorer_mean_over_seeds wSys "U9" 10).1 (by decide)

theorem nodup_keys_content (sys : HybridRecommendationSystem) (uid : UId)
    (n : Nat) :
    ((content_based_recommendations sys uid n).map Prod.fst).Nodup := by
  rw [content_based_recommendations]
  by_cases h : (get_user_interactions sys uid).length = 0
  · rw [if_pos h]
    exact List.nodup_nil
  · rw [if_neg h]
    apply nodup_keys_sort_take
    rw [List.map_map]
    have hcomp : (Prod.fst ∘ fun p : PId × ℚ =>
        (p.1, p.2 / ((get_user_interactions sys uid).length : ℚ))) =
        (Prod.fst : PId × ℚ → PId) := by
      funext p
      rfl
    rw [hcomp]
    exact nodup_keys_content_accumulate sys _

/-- Specification-side abbreviation: one strategy's contribution to the
blended score of a product id — its weight times its raw score when its list
contains the id, `0` otherwise. -/
def weightedLookup (w : ℚ) (l : List (PId × ℚ)) (k : PId) : ℚ :=
  match dget? l k with
  | some s => w * s
  | none => 0

theorem weightedLookup_eq (w : ℚ) (l : List (PId × ℚ)) (k : PId)
    (h : (l.map Prod.fst).Nodup) : weightedLookup w l k = w * keySum l k := by
  rw [weightedLookup, keySum_eq_dget? l k h]
  cases dget? l k with
  | none => simp
  | some s => rfl

/-- C3: in the blend step of `get_hybrid_recommendations`, the accumulated
score of every product id is the sum, over exactly the strategies whose
lists contain that id, of the strategy weight times the strategy's raw
score; and the same total results from merging the three weighted lists in
any order. -/
theorem blend_weighted_sum_order_independent
    (sys : HybridRecommendationSystem) (uid : UId) (n : Nat)
    (cfw cbw popw : ℚ) (pid : PId)
    (hpop : (sys.product_popularity.map Prod.fst).Nodup) :
    dgetD (blendDict (collaborative_recommendations sys uid (n * 2))
        (content_based_recommendations sys uid (n * 2))
        (popularity_recommendations sys uid (n * 2)) cfw cbw popw) pid =
      weightedLookup cfw (collaborative_recommendations sys uid (n * 2))
          pid +
        weightedLookup cbw (content_based_recommendations sys uid (n * 2))
          pid +
        weightedLookup popw (popularity_recommendations sys uid (n * 2))
          pid ∧
    (∀ ls, List.Perm ls
        [(cfw, collaborative_recommendations sys uid (n * 2)),
         (cbw, content_based_recommendations sys uid (n * 2)),
         (popw, popularity_recommendations sys uid (n * 2))] →
      dgetD (mergeAll ls) pid =
        dgetD (blendDict (collaborative_recommendations sys uid (n * 2))
          (content_based_recommendations sys uid (n * 2))
          (popularity_recommendations sys uid (n * 2)) cfw cbw popw) pid) := by
  have hcf := nodup_keys_collaborative sys uid (n * 2)
  have hcb := nodup_keys_content sys uid (n * 2)
  have hpp := (keys_popularity_sublist sys uid (n * 2)).nodup hpop
  have heq := blendDict_eq_mergeAll
    (collaborative_recommendations sys uid (n * 2))
    (content_based_recommendations sys uid (n * 2))
    (popularity_recommendations sys uid (n * 2)) cfw cbw popw hcf
  constructor
  · rw [heq, dgetD_mergeAll, weightedLookup_eq cfw _ pid hcf,
      weightedLookup_eq cbw _ pid hcb, weightedLookup_eq popw _ pid hpp]
    simp only [List.map_cons, List.map_nil, List.sum_cons, List.sum_nil]
    ring
  · intro ls hperm
    rw [dgetD_mergeAll, heq, dgetD_mergeAll]
    exact (hperm.map (fun wl => wl.1 * keySum wl.2 pid)).sum_eq

/-- Witness for C3 at concrete inputs with the source's default weights. -/
theorem blend_weighted_sum_order_independent_witness :
    dgetD (blendDict (collaborative_recommendations wSys "U1" 6)
        (content_based_recommendations wSys "U1" 6)
        (popularity_recommendations wSys "U1" 6) 0.5 0.3 0.2) "P2" =
      weightedLookup 0.5 (collaborative_recommendations wSys "U1" 6) "P2" +
        weightedLookup 0.3 (content_based_recommendations wSys "U1" 6)
          "P2" +
        weightedLookup 0.2 (popularity_recommendations wSys "U1" 6) "P2" :=
  (blend_weighted_sum_order_independent wSys "U1" 3 0.5 0.3 0.2 "P2"
    (by decide)).1

theorem get_hybrid_eq (sys : HybridRecommendationSystem) (uid : UId)
    (n : Nat) (cfw cbw popw : ℚ) :
    get_hybrid_recommendations sys uid n cfw cbw popw =
      enrich_with_details sys.db_products
        (((blendDict (collaborative_recommendations sys uid (n * 2))
            (content_based_recommendations sys uid (n * 2))
            (popularity_recommendations sys uid (n * 2)) cfw cbw
            popw).mergeSort (fun a b => decide (b.2 ≤ a.2))).take n) := rfl

theorem cf_excludes_interactions (sys : HybridRecommendationSystem)
    (uid : UId) (n : Nat) (p : PId × ℚ)
    (h : p ∈ collaborative_recommendations sys uid n) :
    p.1 ∉ get_user_interactions sys uid := by
  have h1 := mem_of_mem_sort_take _ _ _ _ h
  have h2 := (mem_collaborative_predictions sys uid p h1).1
  exact ((mem_products_to_predict sys uid p.1).mp h2).2

theorem cb_excludes_interactions (sys : HybridRecommendationSystem)
    (uid : UId) (n : Nat) (p : PId × ℚ)
    (h : p ∈ content_based_recommendations sys uid n) :
    p.1 ∉ get_user_interactions sys uid := by
  rcases mem_content_based_recommendations sys uid n p h with ⟨q, hq, hpq⟩
  have hkey : q.1 ∉ get_user_interactions sys uid :=
    mem_keys_content_accumulate sys _ q.1 (List.mem_map.mpr ⟨q, hq, rfl⟩)
  rw [hpq]
  exact hkey

theorem pop_excludes_interactions (sys : HybridRecommendationSystem)
    (uid : UId) (n : Nat) (p : PId × ℚ)
    (h : p ∈ popularity_recommendations sys uid n) :
    p.1 ∉ get_user_interactions sys uid :=
  (mem_popularity_recommendations sys uid n p h).2

/-- C1: for a user with at least one recorded interaction and a non-empty
catalog, `get_hybrid_recommendations` returns at most `n` results, their
product ids are pairwise distinct, and none of them is a product the user
has interacted with. -/
theorem hybrid_output_bounded_distinct_unseen
    (sys : HybridRecommendationSystem) (uid : UId) (n : Nat)
    (cfw cbw popw : ℚ)
    (huser : uid ∈ sys.interactions_df.map (fun i => i.userId))
    (hcat : sys.db_products ≠ []) :
    (get_hybrid_recommendations sys uid n cfw cbw popw).length ≤ n ∧
    ((get_hybrid_recommendations sys uid n cfw cbw popw).map
      (fun r => r._id)).Nodup ∧
    (∀ r ∈ get_hybrid_recommendations sys uid n cfw cbw popw,
      ∀ row ∈ sys.interactions_df, row.userId = uid →
        row.productId ≠ r._id) := by
  rw [get_hybrid_eq]
  refine ⟨?_, ?_, ?_⟩
  · refine le_trans (length_enrich_le _ _) ?_
    rw [List.length_take]
    exact min_le_left _ _
  · exact (enrich_ids_sublist _ _).nodup
      (nodup_keys_sort_take _ _ n (nodup_keys_blendDict _ _ _ cfw cbw popw))
  · intro r hr row hrow huid heq
    rcases mem_enrich_with_details _ _ r hr with ⟨p, hp, hid⟩
    have hpkey : p.1 ∈ (blendDict
        (collaborative_recommendations sys uid (n * 2))
        (content_based_recommendations sys uid (n * 2))
        (popularity_recommendations sys uid (n * 2)) cfw cbw
        popw).map Prod.fst :=
      List.mem_map.mpr ⟨p, mem_of_mem_sort_take _ _ _ _ hp, rfl⟩
    have hnotint : p.1 ∉ get_user_interactions sys uid := by
      rcases mem_keys_blendDict _ _ _ _ _ _ p.1 hpkey with hk | hk | hk
      · rcases List.mem_map.mp hk with ⟨q, hq, hq1⟩
        rw [← hq1]
        exact cf_excludes_interactions sys uid _ q hq
      · rcases List.mem_map.mp hk with ⟨q, hq, hq1⟩
        rw [← hq1]
        exact cb_excludes_interactions sys uid _ q hq
      · rcases List.mem_map.mp hk with ⟨q, hq, hq1⟩
        rw [← hq1]
        exact pop_excludes_interactions sys uid _ q hq
    apply hnotint
    rw [← hid, ← heq]
    exact mem_get_user_interactions sys uid row hrow huid

/-- Witness for C1: the concrete system's hybrid output for `U1` obeys the
bound and distinctness invariants. -/
theorem hybrid_output_bounded_distinct_unseen_witness :
    (get_hybrid_recommendations wSys "U1" 3 0.5 0.3 0.2).length ≤ 3 ∧
    ((get_hybrid_recommendations wSys "U1" 3 0.5 0.3 0.2).map
      (fun r => r._id)).Nodup :=
  ⟨(hybrid_output_bounded_distinct_unseen wSys "U1" 3 0.5 0.3 0.2
      (by decide) (by decide)).1,
    (hybrid_output_bounded_distinct_unseen wSys "U1" 3 0.5 0.3 0.2
      (by decide) (by decide)).2.1⟩

end RecomML
